import Mathlib

/-!
Verification of the lightweight structural text-analysis subsystem of the
Vibe editor extension: the outline builder (`provideDocumentSymbols`) and
the diagnostic locator (`runDiagnostics`' stderr-parsing loop, here `locate`).
Source text is modelled as `List Char`; the JavaScript regexes are embedded
as explicit character scans with the same matching semantics.
-/

namespace Vibe

/-! ## Character classes (JS regex `\s`, `\w`, `[a-zA-Z_]`, `[A-Z]`, `[A-Z_]`, `\d`, `.`) -/

/-- JS regex `\s` restricted to the whitespace characters that can occur in
practice after splitting on newlines (space, tab, CR, LF, vertical tab, form feed). -/
def isSpaceChar (c : Char) : Bool :=
  c = ' ' || c = '\t' || c = '\n' || c = '\r' || c = '\x0b' || c = '\x0c'

/-- JS regex `\w` = `[A-Za-z0-9_]`. -/
def isWordChar (c : Char) : Bool :=
  ('a' ≤ c && c ≤ 'z') || ('A' ≤ c && c ≤ 'Z') || ('0' ≤ c && c ≤ '9') || c = '_'

/-- JS regex `[a-zA-Z_]` (first character of an identifier in the `def` pattern). -/
def isIdentStart (c : Char) : Bool :=
  ('a' ≤ c && c ≤ 'z') || ('A' ≤ c && c ≤ 'Z') || c = '_'

/-- JS regex `[A-Z]`. -/
def isUpperChar (c : Char) : Bool := 'A' ≤ c && c ≤ 'Z'

/-- JS regex `[A-Z_]`. -/
def isUpperOrUnderscore (c : Char) : Bool := ('A' ≤ c && c ≤ 'Z') || c = '_'

/-- JS regex `\d`. -/
def isDigitChar (c : Char) : Bool := '0' ≤ c && c ≤ '9'

/-- JS regex `.` (without the `s` flag): any character except a line terminator. -/
def isDotChar (c : Char) : Bool :=
  !(c = '\n' || c = '\r' || c = '\u2028' || c = '\u2029')

/-! ## String helpers shared by both components -/

/-- JS `text.split("\n")` on a character list: always returns at least one
(possibly empty) line; `""` splits to `[""]` exactly as in JS. -/
def splitOnNl : List Char → List (List Char)
  | [] => [[]]
  | c :: rest =>
    if c = '\n' then [] :: splitOnNl rest
    else
      match splitOnNl rest with
      | h :: t => (c :: h) :: t
      | [] => [[c]]

/-- JS `String.prototype.trim`: strip whitespace from both ends. -/
def trimChars (l : List Char) : List Char :=
  ((l.dropWhile isSpaceChar).reverse.dropWhile isSpaceChar).reverse

/-- JS `hay.indexOf(needle)` for the case used by the provider (the needle is a
captured group of the line, hence always present; on an absent needle this
model returns `hay.length`, a case unreachable from the provider). -/
def indexOfSub : List Char → List Char → Nat
  | [], _ => 0
  | h :: t, needle =>
    if needle.isPrefixOf (h :: t) then 0 else indexOfSub t needle + 1

/-! ## The five defining patterns of `provideDocumentSymbols`

Each is a JS regex of shape `^\s*KW\s+([FIRST]\w*)` (the `const` pattern
additionally requires `\s*=` after the identifier).  Because the keyword and
the identifier contain no whitespace, the regex matches exactly when: the
leading whitespace run is followed by the keyword, then at least one
whitespace character, then (after the whitespace run) a character of the
identifier-start class; the captured group is that character followed by the
longest run of word characters. -/

/-- Model of `line.match(/^\s*KW\s+([FIRST]\w*)/)`: the captured identifier. -/
def matchKwIdent (kw : List Char) (first : Char → Bool) (line : List Char) :
    Option (List Char) :=
  if kw.isPrefixOf (line.dropWhile isSpaceChar) then
    match (line.dropWhile isSpaceChar).drop kw.length with
    | [] => none
    | c :: rest =>
      if isSpaceChar c then
        match (c :: rest).dropWhile isSpaceChar with
        | [] => none
        | c2 :: rest2 =>
          if first c2 then some (c2 :: rest2.takeWhile isWordChar) else none
      else none
  else none

/-- Model of `line.match(/^\s*const\s+([A-Z_]\w*)\s*=/)`: the captured identifier. -/
def matchConst (line : List Char) : Option (List Char) :=
  if ("const".toList).isPrefixOf (line.dropWhile isSpaceChar) then
    match (line.dropWhile isSpaceChar).drop 5 with
    | [] => none
    | c :: rest =>
      if isSpaceChar c then
        match (c :: rest).dropWhile isSpaceChar with
        | [] => none
        | c2 :: rest2 =>
          if isUpperOrUnderscore c2 then
            match (rest2.dropWhile isWordChar).dropWhile isSpaceChar with
            | '=' :: _ => some (c2 :: rest2.takeWhile isWordChar)
            | _ => none
          else none
      else none
  else none

/-- The `vscode.SymbolKind` values restricted to the five kinds the provider emits. -/
inductive SymbolKind where
  | function
  | class_
  | struct_
  | enum
  | constant
deriving DecidableEq, Repr

/-- The provider's `patterns` array tried in order; only the first match counts
(the `for (const pat of patterns) ... break` loop). -/
def matchLine (line : List Char) : Option (List Char × SymbolKind) :=
  match matchKwIdent ("def".toList) isIdentStart line with
  | some n => some (n, SymbolKind.function)
  | none =>
  match matchKwIdent ("class".toList) isUpperChar line with
  | some n => some (n, SymbolKind.class_)
  | none =>
  match matchKwIdent ("struct".toList) isUpperChar line with
  | some n => some (n, SymbolKind.struct_)
  | none =>
  match matchKwIdent ("enum".toList) isUpperChar line with
  | some n => some (n, SymbolKind.enum)
  | none =>
  match matchConst line with
  | some n => some (n, SymbolKind.constant)
  | none => none

/-! ## Depth tracking -/

/-- The alternatives of `/^\s*(def|class|struct|enum|if|unless|until|while|for|case|try)\b/`. -/
def blockKeywords : List (List Char) :=
  ["def", "class", "struct", "enum", "if", "unless", "until", "while",
   "for", "case", "try"].map String.toList

/-- Test that `kw` occurs at the head of `r` followed by a word boundary
(the regex fragment `KW\b` anchored at the start of `r`). -/
def kwAtStart (kw : List Char) (r : List Char) : Bool :=
  kw.isPrefixOf r &&
    (match r.drop kw.length with
     | [] => true
     | c :: _ => !isWordChar c)

/-- Model of the depth-increment test
`/^\s*(def|class|struct|enum|if|unless|until|while|for|case|try)\b/.test(trimmed)`.
The `^\s*` is vacuous on trimmed input, so the test is a head-of-line check. -/
def opensBlock (line : List Char) : Bool :=
  blockKeywords.any (fun kw => kwAtStart kw (trimChars line))

/-- Model of the block-closing test `/^\s*end\b/.test(trimmed)`. -/
def isEndLine (line : List Char) : Bool :=
  kwAtStart ("end".toList) (trimChars line)

/-! ## Outline builder state

`vscode.DocumentSymbol` objects are mutated in place through the references
held by `symbols`, by parents' `children`, and by `blockStack`; the embedding
makes that heap explicit as an arena of nodes addressed by creation index. -/

/-- A `vscode.Position` (zero-based line / character). -/
structure Pos where
  line : Nat
  character : Nat
deriving DecidableEq, Repr

/-- One `vscode.DocumentSymbol` as the provider builds it: `rangeStart` and
`rangeEnd` are the endpoints of its `range`, `childIdx` the arena indices of
its `children` in insertion order. -/
structure RawNode where
  name : List Char
  kind : SymbolKind
  rangeStart : Pos
  rangeEnd : Pos
  childIdx : List Nat
deriving DecidableEq, Repr

/-- The provider's loop state: the arena (all nodes ever created, in creation
order), `topLevel` (the `symbols` array, as arena indices), `blockStack`
(top = head; each frame is a node index with the depth at push time), and the
integer `depth` counter. -/
structure BuildState where
  arena : List RawNode
  topLevel : List Nat
  blockStack : List (Nat × Int)
  depth : Int
deriving DecidableEq, Repr

/-- Perform `parent.symbol.children.push(childI)` on the arena. -/
def pushChild (arena : List RawNode) (parent childI : Nat) : List RawNode :=
  match arena[parent]? with
  | some p => arena.set parent { p with childIdx := p.childIdx ++ [childI] }
  | none => arena

/-- Perform `top.symbol.range = new Range(range.start, e)` on the arena. -/
def setEnd (arena : List RawNode) (idx : Nat) (e : Pos) : List RawNode :=
  match arena[idx]? with
  | some p => arena.set idx { p with rangeEnd := e }
  | none => arena

/-- The pattern-matching phase of one loop iteration: on a match, create the
node, attach it (child of the stack top for Function/Enum under a non-empty
stack, else top-level), and push a frame recording the pre-increment depth
unless the kind is Constant. -/
def scanMatchPhase (s : BuildState) (i : Nat) (line : List Char) : BuildState :=
  match matchLine line with
  | none => s
  | some (name, kind) =>
    let idx := s.arena.length
    let node : RawNode :=
      { name := name
        kind := kind
        rangeStart := ⟨i, indexOfSub line name⟩
        rangeEnd := ⟨i, line.length⟩
        childIdx := [] }
    let arena1 := s.arena ++ [node]
    let withPlaced :=
      match s.blockStack with
      | (p, _) :: _ =>
        if kind = SymbolKind.function ∨ kind = SymbolKind.enum then
          { s with arena := pushChild arena1 p idx }
        else { s with arena := arena1, topLevel := s.topLevel ++ [idx] }
      | [] => { s with arena := arena1, topLevel := s.topLevel ++ [idx] }
    if kind = SymbolKind.class_ ∨ kind = SymbolKind.struct_ ∨
        kind = SymbolKind.enum ∨ kind = SymbolKind.function then
      { withPlaced with blockStack := (idx, s.depth) :: withPlaced.blockStack }
    else withPlaced

/-- The depth-increment phase: one increment when the trimmed line heads with
a block-opening keyword. -/
def scanDepthPhase (s : BuildState) (line : List Char) : BuildState :=
  if opensBlock line then { s with depth := s.depth + 1 } else s

/-- The `end` phase: decrement the depth and, when the stack is non-empty and
the decremented depth is at or below the top frame's recorded depth, resolve
the top node's range end to this line's end and pop the frame. -/
def scanEndPhase (s : BuildState) (i : Nat) (line : List Char) : BuildState :=
  if isEndLine line then
    match s.blockStack with
    | [] => { s with depth := s.depth - 1 }
    | (topIdx, topDepth) :: rest =>
      if s.depth - 1 ≤ topDepth then
        { s with
          depth := s.depth - 1
          arena := setEnd s.arena topIdx ⟨i, line.length⟩
          blockStack := rest }
      else { s with depth := s.depth - 1 }
  else s

/-- One iteration of the provider's `for (let i = 0; ...)` loop on line
`line` with index `i`: pattern matching and node creation, then the depth
increment, then the `end` handling. -/
def scanLine (s : BuildState) (i : Nat) (line : List Char) : BuildState :=
  scanEndPhase (scanDepthPhase (scanMatchPhase s i line) line) i line

/-- Scan the lines starting at index `i`. -/
def scanLines (s : BuildState) (i : Nat) : List (List Char) → BuildState
  | [] => s
  | l :: rest => scanLines (scanLine s i l) (i + 1) rest

/-- The provider's initial state. -/
def initState : BuildState := ⟨[], [], [], 0⟩

/-- Full scan of a document given as its list of lines. -/
def buildState (lines : List (List Char)) : BuildState :=
  scanLines initState 0 lines

/-- A finished `vscode.DocumentSymbol` with children materialised. -/
structure SymbolNode where
  name : List Char
  kind : SymbolKind
  rangeStart : Pos
  rangeEnd : Pos
  children : List SymbolNode
deriving Repr

/-- Materialise the node at arena index `idx` (children always have larger
indices than their parent, so `arena.length` fuel suffices). -/
def toTree (arena : List RawNode) : Nat → Nat → SymbolNode
  | 0, _ => ⟨[], SymbolKind.function, ⟨0, 0⟩, ⟨0, 0⟩, []⟩
  | fuel + 1, idx =>
    match arena[idx]? with
    | none => ⟨[], SymbolKind.function, ⟨0, 0⟩, ⟨0, 0⟩, []⟩
    | some n =>
      ⟨n.name, n.kind, n.rangeStart, n.rangeEnd,
        n.childIdx.map (toTree arena fuel)⟩

/-- Model of `VibeDocumentSymbolProvider.provideDocumentSymbols` on a document given as
its list of lines: the returned top-level symbol forest. -/
def provideDocumentSymbols (lines : List (List Char)) : List SymbolNode :=
  let s := buildState lines
  s.topLevel.map (toTree s.arena s.arena.length)

/-- The provider on a whole document text (split on `"\n"` as in the source). -/
def buildStr (text : String) : List SymbolNode :=
  provideDocumentSymbols (splitOnNl text.toList)

/-! ## Diagnostic locator (the stderr-parsing loop of `runDiagnostics`) -/

/-- The `vscode.DiagnosticSeverity` values. -/
inductive DiagnosticSeverity where
  | error
  | warning
  | information
  | hint
deriving DecidableEq, Repr

/-- JS `Number.MAX_SAFE_INTEGER`, the column used for the end of every
diagnostic's range. -/
def maxSafeInteger : Int := 9007199254740991

/-- One `vscode.Diagnostic` as `runDiagnostics` creates it: its range runs
from `(line, col)` to `(line, maxSafeInteger)`. -/
structure Diagnostic where
  line : Int
  col : Int
  endCol : Int
  message : List Char
  severity : DiagnosticSeverity
deriving DecidableEq, Repr

/-- Model of `parseInt` on a non-empty digit string. -/
def parseDigits (l : List Char) : Nat :=
  l.foldl (fun a c => a * 10 + (c.toNat - '0'.toNat)) 0

/-- Try `/\[(\d+):(\d+)\]\s*(.*)/` anchored at the start of `l`: the two
numbers and the captured message.  `\d+` is greedy and must be followed by
the literal `:` resp. `]` (no productive backtracking exists), `\s*` then
swallows whitespace and `(.*)` the rest of the line up to a terminator. -/
def bracketAt (l : List Char) : Option (Nat × Nat × List Char) :=
  match l with
  | [] => none
  | c :: rest =>
    if c = '[' then
      match rest.takeWhile isDigitChar with
      | [] => none
      | _ :: _ =>
        match rest.dropWhile isDigitChar with
        | [] => none
        | c2 :: rest2 =>
          if c2 = ':' then
            match rest2.takeWhile isDigitChar with
            | [] => none
            | _ :: _ =>
              match rest2.dropWhile isDigitChar with
              | [] => none
              | c3 :: rest3 =>
                if c3 = ']' then
                  some (parseDigits (rest.takeWhile isDigitChar),
                    parseDigits (rest2.takeWhile isDigitChar),
                    (rest3.dropWhile isSpaceChar).takeWhile isDotChar)
                else none
          else none
    else none

/-- Model of `errLine.match(/\[(\d+):(\d+)\]\s*(.*)/)`: the regex is unanchored, so the
scan tries every start position left to right. -/
def findBracket : List Char → Option (Nat × Nat × List Char)
  | [] => none
  | c :: rest =>
    match bracketAt (c :: rest) with
    | some r => some r
    | none => findBracket rest

/-- ASCII-only case folding, the canonicalisation JS applies for the `i` flag
on ASCII pattern characters. -/
def lowerChar (c : Char) : Char :=
  if 'A' ≤ c ∧ c ≤ 'Z' then Char.ofNat (c.toNat + 32) else c

/-- Try `/line\s+(\d+)/i` anchored at the start of `l`: the captured number. -/
def proseAt (l : List Char) : Option Nat :=
  match l with
  | a :: b :: c :: d :: rest =>
    if lowerChar a = 'l' ∧ lowerChar b = 'i' ∧ lowerChar c = 'n' ∧
        lowerChar d = 'e' then
      match rest with
      | e :: _ =>
        if isSpaceChar e then
          match (rest.dropWhile isSpaceChar).takeWhile isDigitChar with
          | [] => none
          | ds => some (parseDigits ds)
        else none
      | [] => none
    else none
  | _ => none

/-- Model of `errLine.match(/line\s+(\d+)/i)`: unanchored scan, leftmost match. -/
def findProse : List Char → Option Nat
  | [] => none
  | c :: rest =>
    match proseAt (c :: rest) with
    | some n => some n
    | none => findProse rest

/-- The body of the per-line loop of `runDiagnostics` for one non-blank
stderr line: defaults `line = 0, col = 0, message = errLine.trim()`, then the
bracketed form, then the prose form; severity is always `Error`. -/
def locateLine (errLine : List Char) : Diagnostic :=
  match findBracket errLine with
  | some (a, b, msg) =>
    { line := max 0 ((a : Int) - 1)
      col := max 0 ((b : Int) - 1)
      endCol := maxSafeInteger
      message := msg
      severity := DiagnosticSeverity.error }
  | none =>
    match findProse errLine with
    | some n =>
      { line := max 0 ((n : Int) - 1)
        col := 0
        endCol := maxSafeInteger
        message := trimChars errLine
        severity := DiagnosticSeverity.error }
    | none =>
      { line := 0
        col := 0
        endCol := maxSafeInteger
        message := trimChars errLine
        severity := DiagnosticSeverity.error }

/-- The stderr-parsing loop of `runDiagnostics`: split on `"\n"`, skip lines
that are blank after trimming, emit one diagnostic per remaining line in
input order. -/
def locate (errText : List Char) : List Diagnostic :=
  (splitOnNl errText).foldl
    (fun acc l => if trimChars l = [] then acc else acc ++ [locateLine l]) []

/-- Run `locate` on a whole stderr text given as a string. -/
def locateStr (errText : String) : List Diagnostic :=
  locate errText.toList

/-! ## Spec-side definition used to compare with the depth-tracking code

The claim under review speaks of a line that *contains* a block-opening
keyword; the following definition renders that wording (an occurrence of the
keyword anywhere in the line, delimited as a word), to be compared with the
source's anchored test `opensBlock`. -/

/-- Test that `kw` occurs as a whole word somewhere in the remaining text, where
`prevIsWord` records whether the character just before it is a word
character. -/
def containsWordFrom (kw : List Char) (prevIsWord : Bool) : List Char → Bool
  | [] => false
  | c :: rest =>
    (!prevIsWord && kwAtStart kw (c :: rest)) ||
      containsWordFrom kw (isWordChar c) rest

/-- Test that `kw` occurs as a whole word somewhere in `l`. -/
def containsWord (kw l : List Char) : Bool := containsWordFrom kw false l

/-- The claim's reading of step 4: the line contains some block-opening
keyword (anywhere, as a word). -/
def specContainsBlockKeyword (l : List Char) : Bool :=
  blockKeywords.any (fun kw => containsWord kw l)

/-- The loop invariant behind the provisional-end guarantee: stack frames
point below the arena bound, no index is on the stack twice, every node still
on the stack keeps its provisional range (its own definition line, with that
line's end column), and every non-Function/Enum node is in the top-level
list. -/
def StateOK (lines : List (List Char)) (s : BuildState) : Prop :=
  (∀ q ∈ s.blockStack, q.1 < s.arena.length) ∧
  (s.blockStack.map Prod.fst).Nodup ∧
  (∀ q ∈ s.blockStack, ∀ node : RawNode, s.arena[q.1]? = some node →
    node.rangeEnd.line = node.rangeStart.line ∧
    node.rangeEnd.character = (lines.getD node.rangeStart.line []).length) ∧
  (∀ (idx : Nat) (node : RawNode), s.arena[idx]? = some node →
    node.kind ≠ SymbolKind.function → node.kind ≠ SymbolKind.enum →
    idx ∈ s.topLevel)

/-! ## Character-class facts -/

lemma not_word_of_space {c : Char} (h : isSpaceChar c = true) :
    isWordChar c = false := by
  simp only [isSpaceChar, Bool.or_eq_true, decide_eq_true_eq] at h
  rcases h with ((((rfl | rfl) | rfl) | rfl) | rfl) | rfl <;> decide

lemma not_space_of_identStart {c : Char} (h : isIdentStart c = true) :
    isSpaceChar c = false := by
  cases hs : isSpaceChar c with
  | false => rfl
  | true =>
    exfalso
    simp only [isSpaceChar, Bool.or_eq_true, decide_eq_true_eq] at hs
    rcases hs with ((((rfl | rfl) | rfl) | rfl) | rfl) | rfl <;> exact absurd h (by decide)

lemma not_space_of_upper {c : Char} (h : isUpperChar c = true) :
    isSpaceChar c = false := by
  cases hs : isSpaceChar c with
  | false => rfl
  | true =>
    exfalso
    simp only [isSpaceChar, Bool.or_eq_true, decide_eq_true_eq] at hs
    rcases hs with ((((rfl | rfl) | rfl) | rfl) | rfl) | rfl <;> exact absurd h (by decide)

/-! ## Prefix utilities -/

lemma isPrefixOf_false_of_conflict {r a b : List Char}
    (hb : b.isPrefixOf r = true) (j : Nat) (hja : j < a.length)
    (hjb : j < b.length) (hne : a[j] ≠ b[j]) :
    a.isPrefixOf r = false := by
  cases hp : a.isPrefixOf r with
  | false => rfl
  | true =>
    exfalso
    rw [ List.isPrefixOf_iff_prefix] at hp hb
    exact hne ((hp.getElem hja).trans (hb.getElem hjb).symm)

/-- Since right-trimming only removes characters, the trimmed line is an initial
segment of the left-trimmed line, the remainder being trailing whitespace. -/
lemma trim_decomp (l : List Char) :
    ∃ sfx, l.dropWhile isSpaceChar = trimChars l ++ sfx ∧
      ∀ c ∈ sfx, isSpaceChar c = true := by
  refine ⟨((l.dropWhile isSpaceChar).reverse.takeWhile isSpaceChar).reverse,
    ?_, ?_⟩
  · have h := List.takeWhile_append_dropWhile isSpaceChar
      (l.dropWhile isSpaceChar).reverse
    calc l.dropWhile isSpaceChar
        = (l.dropWhile isSpaceChar).reverse.reverse := (List.reverse_reverse _).symm
      _ = ((l.dropWhile isSpaceChar).reverse.takeWhile isSpaceChar ++
            (l.dropWhile isSpaceChar).reverse.dropWhile isSpaceChar).reverse := by
            rw [h]
      _ = trimChars l ++
            ((l.dropWhile isSpaceChar).reverse.takeWhile isSpaceChar).reverse := by
            rw [List.reverse_append]; rfl
  · intro c hc
    rw [List.mem_reverse] at hc
    exact List.mem_takeWhile_imp hc

lemma trim_prefixOf_drop (l : List Char) :
    (trimChars l).isPrefixOf (l.dropWhile isSpaceChar) = true := by
  obtain ⟨sfx, hd, -⟩ := trim_decomp l
  rw [ List.isPrefixOf_iff_prefix, hd]
  exact List.prefix_append _ _

/-! ## Consequences of a defining-pattern match -/

/-- A successful `matchKwIdent` yields: the keyword heads the left-trimmed
line and is followed by at least one whitespace character. -/
lemma matchKwIdent_parts {kw : List Char} {first : Char → Bool}
    {l n : List Char} (h : matchKwIdent kw first l = some n) :
    kw.isPrefixOf (l.dropWhile isSpaceChar) = true ∧
      ∃ c rest, (l.dropWhile isSpaceChar).drop kw.length = c :: rest ∧
        isSpaceChar c = true := by
  unfold matchKwIdent at h
  split at h
  · rename_i hpre
    refine ⟨hpre, ?_⟩
    split at h
    · exact absurd h (by simp)
    · rename_i c rest heq
      split at h
      · rename_i hc
        exact ⟨c, rest, heq, hc⟩
      · exact absurd h (by simp)
  · exact absurd h (by simp)

/-- A keyword that matched as `KW\s+ident` on the raw line passes the
anchored word-boundary test on the trimmed line. -/
lemma kwAtStart_trim {kw l : List Char}
    (hkw : ∀ c ∈ kw, isSpaceChar c = false)
    (hpre0 : kw.isPrefixOf (l.dropWhile isSpaceChar) = true)
    {c : Char} {rest : List Char}
    (hdrop : (l.dropWhile isSpaceChar).drop kw.length = c :: rest)
    (hc : isSpaceChar c = true) :
    kwAtStart kw (trimChars l) = true := by
  obtain ⟨sfx, hd, hsfx⟩ := trim_decomp l
  have hpre : kw <+: l.dropWhile isSpaceChar :=
    List.isPrefixOf_iff_prefix.mp hpre0
  have hlen : kw.length ≤ (trimChars l).length := by
    by_contra hcon
    push_neg at hcon
    have hjr : (trimChars l).length < (l.dropWhile isSpaceChar).length :=
      Nat.lt_of_lt_of_le hcon hpre.length_le
    have hmem : (l.dropWhile isSpaceChar)[(trimChars l).length] ∈ sfx := by
      rw [List.getElem_of_eq hd hjr, List.getElem_append_right (Nat.le_refl _)]
      exact List.getElem_mem _
    have hspace := hsfx _ hmem
    have hns : isSpaceChar ((l.dropWhile isSpaceChar)[(trimChars l).length])
        = false := by
      rw [← hpre.getElem hcon]
      exact hkw _ (List.getElem_mem hcon)
    rw [hns] at hspace
    cases hspace
  have hpret : kw.isPrefixOf (trimChars l) = true := by
    have h2 := List.prefix_iff_eq_take.mp hpre
    rw [hd, List.take_append_of_le_length hlen] at h2
    rw [ List.isPrefixOf_iff_prefix, List.prefix_iff_eq_take]
    exact h2
  unfold kwAtStart
  rw [hpret]
  simp only [Bool.true_and]
  have hdrop2 : (trimChars l).drop kw.length ++ sfx = c :: rest := by
    rw [← List.drop_append_of_le_length hlen, ← hd, hdrop]
  cases ht : (trimChars l).drop kw.length with
  | nil => simp
  | cons c0 rest0 =>
    rw [ht] at hdrop2
    simp only [List.cons_append, List.cons.injEq] at hdrop2
    obtain ⟨rfl, -⟩ := hdrop2
    simp [not_word_of_space hc]

lemma kwAtStart_false_of_no_head {kw r : List Char}
    (h : kw.isPrefixOf r = false) : kwAtStart kw r = false := by
  unfold kwAtStart
  rw [h]
  rfl

lemma opensBlock_of_kw {kw l : List Char} (hmem : kw ∈ blockKeywords)
    (h : kwAtStart kw (trimChars l) = true) : opensBlock l = true := by
  unfold opensBlock
  rw [List.any_eq_true]
  exact ⟨kw, hmem, h⟩

lemma matchKwIdent_none_of_no_head {kw : List Char} {first : Char → Bool}
    {l : List Char} (h : kw.isPrefixOf (l.dropWhile isSpaceChar) = false) :
    matchKwIdent kw first l = none := by
  unfold matchKwIdent
  rw [h]
  rfl

lemma matchConst_none_of_no_head {l : List Char}
    (h : ("const".toList).isPrefixOf (l.dropWhile isSpaceChar) = false) :
    matchConst l = none := by
  unfold matchConst
  rw [h]
  rfl

/-- Inversion of the pattern-priority chain: which keyword produced which
kind, together with the keyword's match data. -/
lemma matchLine_inv {l n : List Char} {k : SymbolKind}
    (h : matchLine l = some (n, k)) :
    (k = SymbolKind.function ∧ matchKwIdent ("def".toList) isIdentStart l = some n) ∨
    (k = SymbolKind.class_ ∧ matchKwIdent ("class".toList) isUpperChar l = some n) ∨
    (k = SymbolKind.struct_ ∧ matchKwIdent ("struct".toList) isUpperChar l = some n) ∨
    (k = SymbolKind.enum ∧ matchKwIdent ("enum".toList) isUpperChar l = some n) ∨
    (k = SymbolKind.constant ∧ matchConst l = some n) := by
  unfold matchLine at h
  split at h
  · rename_i heq
    simp only [Option.some.injEq, Prod.mk.injEq] at h
    exact Or.inl ⟨h.2.symm, by rw [heq, h.1]⟩
  · split at h
    · rename_i heq
      simp only [Option.some.injEq, Prod.mk.injEq] at h
      exact Or.inr (Or.inl ⟨h.2.symm, by rw [heq, h.1]⟩)
    · split at h
      · rename_i heq
        simp only [Option.some.injEq, Prod.mk.injEq] at h
        exact Or.inr (Or.inr (Or.inl ⟨h.2.symm, by rw [heq, h.1]⟩))
      · split at h
        · rename_i heq
          simp only [Option.some.injEq, Prod.mk.injEq] at h
          exact Or.inr (Or.inr (Or.inr (Or.inl ⟨h.2.symm, by rw [heq, h.1]⟩)))
        · split at h
          · rename_i heq
            simp only [Option.some.injEq, Prod.mk.injEq] at h
            exact Or.inr (Or.inr (Or.inr (Or.inr ⟨h.2.symm, by rw [heq, h.1]⟩)))
          · exact absurd h (by simp)

/-- An `end` line heads (after left-trimming) with `end`. -/
lemma end_prefixOf_trim {l : List Char} (h : isEndLine l = true) :
    ("end".toList).isPrefixOf (trimChars l) = true := by
  unfold isEndLine kwAtStart at h
  exact (Bool.and_eq_true _ _).mp h |>.1

lemma end_prefixOf_drop {l : List Char} (h : isEndLine l = true) :
    ("end".toList).isPrefixOf (l.dropWhile isSpaceChar) = true := by
  have h1 := List.isPrefixOf_iff_prefix.mp (end_prefixOf_trim h)
  have h2 := List.isPrefixOf_iff_prefix.mp (trim_prefixOf_drop l)
  exact List.isPrefixOf_iff_prefix.mpr (h1.trans h2)

/-- On an `end` line no defining pattern matches (all five keywords disagree
with `end` within the first three characters). -/
lemma matchLine_none_of_end {l : List Char} (h : isEndLine l = true) :
    matchLine l = none := by
  have hend := end_prefixOf_drop h
  have hdef : ("def".toList).isPrefixOf (l.dropWhile isSpaceChar) = false :=
    isPrefixOf_false_of_conflict hend 0 (by decide) (by decide) (by decide)
  have hclass : ("class".toList).isPrefixOf (l.dropWhile isSpaceChar) = false :=
    isPrefixOf_false_of_conflict hend 0 (by decide) (by decide) (by decide)
  have hstruct : ("struct".toList).isPrefixOf (l.dropWhile isSpaceChar) = false :=
    isPrefixOf_false_of_conflict hend 0 (by decide) (by decide) (by decide)
  have henum : ("enum".toList).isPrefixOf (l.dropWhile isSpaceChar) = false :=
    isPrefixOf_false_of_conflict hend 2 (by decide) (by decide) (by decide)
  have hconst : ("const".toList).isPrefixOf (l.dropWhile isSpaceChar) = false :=
    isPrefixOf_false_of_conflict hend 0 (by decide) (by decide) (by decide)
  unfold matchLine
  rw [matchKwIdent_none_of_no_head hdef,
    matchKwIdent_none_of_no_head hclass,
    matchKwIdent_none_of_no_head hstruct,
    matchKwIdent_none_of_no_head henum,
    matchConst_none_of_no_head hconst]

/-- An `end` line passes none of the eleven block-opening keyword tests. -/
lemma opensBlock_false_of_end {l : List Char} (h : isEndLine l = true) :
    opensBlock l = false := by
  have hend := end_prefixOf_trim h
  unfold opensBlock
  rw [List.any_eq_false]
  intro kw hkw
  have : kw.isPrefixOf (trimChars l) = false := by
    simp only [blockKeywords, List.mem_map, List.mem_cons] at hkw
    obtain ⟨str, hstr, rfl⟩ := hkw
    rcases hstr with rfl | rfl | rfl | rfl | rfl | rfl | rfl | rfl | rfl | rfl |
        rfl | hfalse
    · exact isPrefixOf_false_of_conflict hend 0 (by decide) (by decide) (by decide)
    · exact isPrefixOf_false_of_conflict hend 0 (by decide) (by decide) (by decide)
    · exact isPrefixOf_false_of_conflict hend 0 (by decide) (by decide) (by decide)
    · exact isPrefixOf_false_of_conflict hend 2 (by decide) (by decide) (by decide)
    · exact isPrefixOf_false_of_conflict hend 0 (by decide) (by decide) (by decide)
    · exact isPrefixOf_false_of_conflict hend 0 (by decide) (by decide) (by decide)
    · exact isPrefixOf_false_of_conflict hend 0 (by decide) (by decide) (by decide)
    · exact isPrefixOf_false_of_conflict hend 0 (by decide) (by decide) (by decide)
    · exact isPrefixOf_false_of_conflict hend 0 (by decide) (by decide) (by decide)
    · exact isPrefixOf_false_of_conflict hend 0 (by decide) (by decide) (by decide)
    · exact isPrefixOf_false_of_conflict hend 0 (by decide) (by decide) (by decide)
    · exact absurd hfalse (List.not_mem_nil _)
  rw [kwAtStart_false_of_no_head this]
  simp

/-- A line on which a defining pattern matched is not an `end` line. -/
lemma isEndLine_false_of_match {l n : List Char} {k : SymbolKind}
    (h : matchLine l = some (n, k)) : isEndLine l = false := by
  cases he : isEndLine l with
  | false => rfl
  | true =>
    exfalso
    rw [matchLine_none_of_end he] at h
    cases h

/-- A line on which a defining pattern other than `const` matched passes the
depth-increment test (its keyword heads the trimmed line, followed by the
whitespace the pattern requires). -/
lemma opensBlock_of_match {l n : List Char} {k : SymbolKind}
    (h : matchLine l = some (n, k)) (hk : k ≠ SymbolKind.constant) :
    opensBlock l = true := by
  rcases matchLine_inv h with ⟨-, hm⟩ | ⟨-, hm⟩ | ⟨-, hm⟩ | ⟨-, hm⟩ | ⟨hk2, -⟩
  · obtain ⟨hpre, c, rest, hdrop, hc⟩ := matchKwIdent_parts hm
    exact opensBlock_of_kw (by decide)
      (kwAtStart_trim (by decide) hpre hdrop hc)
  · obtain ⟨hpre, c, rest, hdrop, hc⟩ := matchKwIdent_parts hm
    exact opensBlock_of_kw (by decide)
      (kwAtStart_trim (by decide) hpre hdrop hc)
  · obtain ⟨hpre, c, rest, hdrop, hc⟩ := matchKwIdent_parts hm
    exact opensBlock_of_kw (by decide)
      (kwAtStart_trim (by decide) hpre hdrop hc)
  · obtain ⟨hpre, c, rest, hdrop, hc⟩ := matchKwIdent_parts hm
    exact opensBlock_of_kw (by decide)
      (kwAtStart_trim (by decide) hpre hdrop hc)
  · exact absurd hk2 hk

/-! ## Step lemmas for `scanLine` -/

lemma scanMatchPhase_none {s : BuildState} {i : Nat} {l : List Char}
    (h : matchLine l = none) : scanMatchPhase s i l = s := by
  simp [scanMatchPhase, h]

lemma scanMatchPhase_class {s : BuildState} {i : Nat} {l n : List Char}
    (h : matchLine l = some (n, SymbolKind.class_)) :
    scanMatchPhase s i l =
      { arena := s.arena ++
          [⟨n, SymbolKind.class_, ⟨i, indexOfSub l n⟩, ⟨i, l.length⟩, []⟩]
        topLevel := s.topLevel ++ [s.arena.length]
        blockStack := (s.arena.length, s.depth) :: s.blockStack
        depth := s.depth } := by
  simp only [scanMatchPhase, h]
  cases s.blockStack <;> simp

lemma scanMatchPhase_funcEnum_child {s : BuildState} {i : Nat} {l n : List Char}
    {k : SymbolKind} {p : Nat} {pd : Int} {rest : List (Nat × Int)}
    (h : matchLine l = some (n, k))
    (hk : k = SymbolKind.function ∨ k = SymbolKind.enum)
    (hs : s.blockStack = (p, pd) :: rest) :
    scanMatchPhase s i l =
      { arena := pushChild
          (s.arena ++ [⟨n, k, ⟨i, indexOfSub l n⟩, ⟨i, l.length⟩, []⟩])
          p s.arena.length
        topLevel := s.topLevel
        blockStack := (s.arena.length, s.depth) :: s.blockStack
        depth := s.depth } := by
  simp only [scanMatchPhase, h, hs]
  rcases hk with rfl | rfl <;> simp

lemma scanDepthPhase_open {s : BuildState} {l : List Char}
    (ho : opensBlock l = true) :
    scanDepthPhase s l = { s with depth := s.depth + 1 } := by
  simp [scanDepthPhase, ho]

lemma scanDepthPhase_closed {s : BuildState} {l : List Char}
    (ho : opensBlock l = false) : scanDepthPhase s l = s := by
  simp [scanDepthPhase, ho]

lemma scanEndPhase_not {s : BuildState} {i : Nat} {l : List Char}
    (he : isEndLine l = false) : scanEndPhase s i l = s := by
  simp [scanEndPhase, he]

lemma scanEndPhase_pop {s : BuildState} {i : Nat} {l : List Char}
    {t : Nat} {td : Int} {rest : List (Nat × Int)}
    (h : isEndLine l = true) (hs : s.blockStack = (t, td) :: rest)
    (hd : s.depth - 1 ≤ td) :
    scanEndPhase s i l =
      { arena := setEnd s.arena t ⟨i, l.length⟩
        topLevel := s.topLevel
        blockStack := rest
        depth := s.depth - 1 } := by
  simp [scanEndPhase, h, hs, hd]

/-- A `class` line: the new node goes to the arena and the top-level list,
a frame is pushed with the pre-increment depth, and the depth increments. -/
lemma scanLine_class {s : BuildState} {i : Nat} {l n : List Char}
    (h : matchLine l = some (n, SymbolKind.class_)) :
    scanLine s i l =
      { arena := s.arena ++
          [⟨n, SymbolKind.class_, ⟨i, indexOfSub l n⟩, ⟨i, l.length⟩, []⟩]
        topLevel := s.topLevel ++ [s.arena.length]
        blockStack := (s.arena.length, s.depth) :: s.blockStack
        depth := s.depth + 1 } := by
  have ho := opensBlock_of_match h (by decide)
  have he := isEndLine_false_of_match h
  rw [scanLine, scanMatchPhase_class h, scanDepthPhase_open ho,
    scanEndPhase_not he]

/-- A `def` (or `enum`) line while the stack is non-empty: the new node is
pushed onto the children of the stack's top node (whatever its kind), the
top-level list is unchanged, a frame is pushed, and the depth increments. -/
lemma scanLine_funcEnum_child {s : BuildState} {i : Nat} {l n : List Char}
    {k : SymbolKind} {p : Nat} {pd : Int} {rest : List (Nat × Int)}
    (h : matchLine l = some (n, k))
    (hk : k = SymbolKind.function ∨ k = SymbolKind.enum)
    (hs : s.blockStack = (p, pd) :: rest) :
    scanLine s i l =
      { arena := pushChild
          (s.arena ++ [⟨n, k, ⟨i, indexOfSub l n⟩, ⟨i, l.length⟩, []⟩])
          p s.arena.length
        topLevel := s.topLevel
        blockStack := (s.arena.length, s.depth) :: s.blockStack
        depth := s.depth + 1 } := by
  have ho : opensBlock l = true := by
    rcases hk with rfl | rfl <;> exact opensBlock_of_match h (by decide)
  have he := isEndLine_false_of_match h
  rw [scanLine, scanMatchPhase_funcEnum_child h hk hs, scanDepthPhase_open ho,
    scanEndPhase_not he]

/-- An `end` line that closes the top frame (post-decrement depth at or below
the frame's recorded depth): the top node's range end is rewritten to this
line's end, the frame is popped, and the depth decrements. -/
lemma scanLine_end_pop (s : BuildState) {i : Nat} {l : List Char}
    {t : Nat} {td : Int} {rest : List (Nat × Int)}
    (h : isEndLine l = true) (hs : s.blockStack = (t, td) :: rest)
    (hd : s.depth - 1 ≤ td) :
    scanLine s i l =
      { arena := setEnd s.arena t ⟨i, l.length⟩
        topLevel := s.topLevel
        blockStack := rest
        depth := s.depth - 1 } := by
  have hm := matchLine_none_of_end h
  have ho := opensBlock_false_of_end h
  rw [scanLine, scanMatchPhase_none hm, scanDepthPhase_closed ho]
  exact scanEndPhase_pop h hs hd

lemma scanMatchPhase_depth (s : BuildState) (i : Nat) (l : List Char) :
    (scanMatchPhase s i l).depth = s.depth := by
  unfold scanMatchPhase
  cases hm : matchLine l with
  | none => rfl
  | some nk =>
    obtain ⟨n, k⟩ := nk
    cases s.blockStack <;> cases k <;> simp

lemma scanDepthPhase_depth (s : BuildState) (l : List Char) :
    (scanDepthPhase s l).depth =
      s.depth + (if opensBlock l then 1 else 0) := by
  unfold scanDepthPhase
  split <;> simp

lemma scanEndPhase_depth (s : BuildState) (i : Nat) (l : List Char) :
    (scanEndPhase s i l).depth =
      s.depth - (if isEndLine l then 1 else 0) := by
  unfold scanEndPhase
  split
  · split
    · simp
    · split <;> simp
  · simp

/-- Per-line depth bookkeeping: exactly one increment when the trimmed line
heads with a block-opening keyword, exactly one decrement when it heads with
`end`, nothing else ever touches `depth`. -/
lemma scanLine_depth (s : BuildState) (i : Nat) (l : List Char) :
    (scanLine s i l).depth =
      s.depth + (if opensBlock l then 1 else 0) -
        (if isEndLine l then 1 else 0) := by
  rw [scanLine, scanEndPhase_depth, scanDepthPhase_depth, scanMatchPhase_depth]

/-! ## Locator lemmas -/

/-- JS `Math.max(0, n - 1)` on a parsed (non-negative) number is truncated
subtraction. -/
lemma max_zero_sub_one (a : Nat) :
    max 0 ((a : Int) - 1) = ((a - 1 : Nat) : Int) := by
  omega

/-- The accumulating loop of `locate` appends exactly one diagnostic per
non-blank line, in order. -/
lemma locate_foldl_eq (ls : List (List Char)) (acc : List Diagnostic) :
    ls.foldl
        (fun acc l => if trimChars l = [] then acc else acc ++ [locateLine l])
        acc =
      acc ++ (ls.filter (fun l => !decide (trimChars l = []))).map locateLine := by
  induction ls generalizing acc with
  | nil => simp
  | cons l rest ih =>
    simp only [List.foldl_cons, List.filter_cons]
    by_cases hb : trimChars l = []
    · simp [hb, ih]
    · simp [hb, ih]

/-- Function `locate` is the per-line locator mapped over the non-blank lines. -/
lemma locate_eq_map_filter (t : List Char) :
    locate t =
      ((splitOnNl t).filter (fun l => !decide (trimChars l = []))).map
        locateLine := by
  unfold locate
  rw [locate_foldl_eq]
  rfl

/-- Every diagnostic a single line produces is non-negative and an error. -/
lemma locateLine_basic (l : List Char) :
    0 ≤ (locateLine l).line ∧ 0 ≤ (locateLine l).col ∧
      (locateLine l).severity = DiagnosticSeverity.error := by
  unfold locateLine
  cases hb : findBracket l with
  | some r =>
    obtain ⟨a, b, m⟩ := r
    simp [le_max_left]
  | none =>
    cases hp : findProse l with
    | some n => simp [le_max_left]
    | none => simp

/-- Computation of the anchored bracket matcher on a line whose prefix has
the bracketed shape `[digits:digits]`. -/
lemma bracketAt_shape (d1 d2 rest : List Char)
    (h1 : d1 ≠ []) (h2 : d2 ≠ [])
    (hd1 : ∀ c ∈ d1, isDigitChar c = true)
    (hd2 : ∀ c ∈ d2, isDigitChar c = true) :
    bracketAt ('[' :: (d1 ++ ':' :: (d2 ++ ']' :: rest))) =
      some (parseDigits d1, parseDigits d2,
        (rest.dropWhile isSpaceChar).takeWhile isDotChar) := by
  obtain ⟨c1, cs1, rfl⟩ := List.exists_cons_of_ne_nil h1
  obtain ⟨c2, cs2, rfl⟩ := List.exists_cons_of_ne_nil h2
  have ht1 : ((c1 :: cs1) ++ ':' :: ((c2 :: cs2) ++ ']' :: rest)).takeWhile
      isDigitChar = c1 :: cs1 := by
    rw [List.takeWhile_append_of_pos hd1, List.takeWhile_cons_of_neg (by decide)]
    simp
  have hr1 : ((c1 :: cs1) ++ ':' :: ((c2 :: cs2) ++ ']' :: rest)).dropWhile
      isDigitChar = ':' :: ((c2 :: cs2) ++ ']' :: rest) := by
    rw [List.dropWhile_append_of_pos hd1, List.dropWhile_cons_of_neg (by decide)]
  have ht2 : ((c2 :: cs2) ++ ']' :: rest).takeWhile isDigitChar = c2 :: cs2 := by
    rw [List.takeWhile_append_of_pos hd2, List.takeWhile_cons_of_neg (by decide)]
    simp
  have hr2 : ((c2 :: cs2) ++ ']' :: rest).dropWhile isDigitChar = ']' :: rest := by
    rw [List.dropWhile_append_of_pos hd2, List.dropWhile_cons_of_neg (by decide)]
  unfold bracketAt
  dsimp only
  rw [if_pos rfl, ht1, hr1]
  dsimp only
  rw [if_pos rfl, ht2, hr2]
  dsimp only
  rw [if_pos rfl]

/-- The unanchored scan returns the anchored match when the latter exists at
position zero. -/
lemma findBracket_of_bracketAt {l : List Char} {r : Nat × Nat × List Char}
    (h : bracketAt l = some r) : findBracket l = some r := by
  cases l with
  | nil => simp [bracketAt] at h
  | cons c rest =>
    unfold findBracket
    rw [h]

/-! ## Claim theorems: diagnostic locator -/

/-- C2: for every line whose prefix has the bracketed form
`[digits:digits] message`, the locator yields the 1-based→0-based converted
position (floored at 0, per the data model's non-negativity) and the
remainder after the bracket (leading whitespace stripped) as message; in
particular `[3:5] unexpected token` gives line 2, column 4, message
`unexpected token`. -/
theorem locate_bracket_prefix :
    (∀ (d1 d2 rest : List Char),
        d1 ≠ [] → d2 ≠ [] →
        (∀ c ∈ d1, isDigitChar c = true) →
        (∀ c ∈ d2, isDigitChar c = true) →
        locateLine ('[' :: (d1 ++ ':' :: (d2 ++ ']' :: rest))) =
          { line := ((parseDigits d1 - 1 : Nat) : Int)
            col := ((parseDigits d2 - 1 : Nat) : Int)
            endCol := maxSafeInteger
            message := (rest.dropWhile isSpaceChar).takeWhile isDotChar
            severity := DiagnosticSeverity.error }) ∧
    locateStr "[3:5] unexpected token" =
      [{ line := 2, col := 4, endCol := maxSafeInteger,
         message := "unexpected token".toList,
         severity := DiagnosticSeverity.error }] := by
  constructor
  · intro d1 d2 rest h1 h2 hd1 hd2
    have hb := findBracket_of_bracketAt (bracketAt_shape d1 d2 rest h1 h2 hd1 hd2)
    unfold locateLine
    rw [hb]
    dsimp only
    rw [max_zero_sub_one, max_zero_sub_one]
  · decide

theorem locate_bracket_prefix_witness :
    locateLine ('[' :: (['3'] ++ ':' :: (['5'] ++ ']' :: (" boom".toList)))) =
      { line := ((parseDigits ['3'] - 1 : Nat) : Int)
        col := ((parseDigits ['5'] - 1 : Nat) : Int)
        endCol := maxSafeInteger
        message := ((" boom".toList).dropWhile isSpaceChar).takeWhile isDotChar
        severity := DiagnosticSeverity.error } :=
  locate_bracket_prefix.1 ['3'] ['5'] (" boom".toList)
    (by decide) (by decide) (by decide) (by decide)

/-- C3 counterexample: the line `x [1:2] y line 7` has no bracketed-form
prefix (`bracketAt` fails at position 0) and contains `line 7`, yet the
locator — whose bracket search is unanchored — anchors on the mid-line
bracket and does not produce the prose-form diagnostic the claim predicts. -/
theorem locate_prose_cex :
    bracketAt ("x [1:2] y line 7".toList) = none ∧
    locateStr "x [1:2] y line 7" =
      [{ line := 0, col := 1, endCol := maxSafeInteger,
         message := "y line 7".toList,
         severity := DiagnosticSeverity.error }] ∧
    locateStr "x [1:2] y line 7" ≠
      [{ line := 6, col := 0, endCol := maxSafeInteger,
         message := "x [1:2] y line 7".toList,
         severity := DiagnosticSeverity.error }] :=
  ⟨rfl, rfl, by decide⟩

/-- C3 as amended: for every non-blank line on which the (unanchored) bracket
matcher finds nothing anywhere and the case-insensitive `line N` matcher
succeeds, the locator emits line `N-1`, column 0, and the full trimmed line
as message; in particular for `Error: boom at line 10`. -/
theorem locate_prose_form :
    (∀ (l : List Char) (n : Nat),
        trimChars l ≠ [] → findBracket l = none → findProse l = some n →
        locateLine l =
          { line := ((n - 1 : Nat) : Int), col := 0, endCol := maxSafeInteger,
            message := trimChars l,
            severity := DiagnosticSeverity.error }) ∧
    locateStr "Error: boom at line 10" =
      [{ line := 9, col := 0, endCol := maxSafeInteger,
         message := "Error: boom at line 10".toList,
         severity := DiagnosticSeverity.error }] := by
  constructor
  · intro l n hnb hb hp
    unfold locateLine
    rw [hb, hp]
    dsimp only
    rw [max_zero_sub_one]
  · decide

theorem locate_prose_form_witness :
    locateLine ("boom at line 3".toList) =
      { line := ((3 - 1 : Nat) : Int), col := 0, endCol := maxSafeInteger,
        message := trimChars ("boom at line 3".toList),
        severity := DiagnosticSeverity.error } :=
  locate_prose_form.1 ("boom at line 3".toList) 3
    (by decide) (by decide) (by decide)

/-- C4: the locator emits exactly one diagnostic per non-blank (after
trimming) input line, in input order, and none for blank lines; empty and
whitespace-only inputs give the empty sequence. -/
theorem locate_per_nonblank_line :
    (∀ t : List Char,
        locate t =
          ((splitOnNl t).filter (fun l => !decide (trimChars l = []))).map
            locateLine) ∧
    locateStr "" = [] ∧ locateStr "  \t " = [] ∧ locateStr " \n  \n " = [] :=
  ⟨locate_eq_map_filter, rfl, by decide, by decide⟩

/-- C5: every emitted diagnostic has non-negative line and column and
severity Error; when neither extraction pattern matches, the position is
`(0, 0)`. -/
theorem locate_invariants :
    (∀ (t : List Char) (d : Diagnostic), d ∈ locate t →
        0 ≤ d.line ∧ 0 ≤ d.col ∧ d.severity = DiagnosticSeverity.error) ∧
    (∀ l : List Char, findBracket l = none → findProse l = none →
        (locateLine l).line = 0 ∧ (locateLine l).col = 0) := by
  constructor
  · intro t d hd
    rw [locate_eq_map_filter] at hd
    obtain ⟨l, -, rfl⟩ := List.mem_map.mp hd
    exact locateLine_basic l
  · intro l hb hp
    unfold locateLine
    rw [hb, hp]
    exact ⟨rfl, rfl⟩

theorem locate_invariants_witness :
    (0 ≤ (locateLine ("[3:5] x".toList)).line ∧
      0 ≤ (locateLine ("[3:5] x".toList)).col ∧
      (locateLine ("[3:5] x".toList)).severity = DiagnosticSeverity.error) ∧
    ((locateLine ("plain".toList)).line = 0 ∧
      (locateLine ("plain".toList)).col = 0) :=
  ⟨locate_invariants.1 ("[3:5] x".toList) (locateLine ("[3:5] x".toList))
      (by decide),
    locate_invariants.2 ("plain".toList) (by decide) (by decide)⟩

/-! ## Claim theorems: depth tracking and the `def` pattern -/

/-- C6 counterexample: `x = if y` contains the block-opening keyword `if`
(as a whole word), yet scanning the line leaves the depth counter at 0 —
the source's test is anchored at the head of the trimmed line. -/
theorem depth_contains_keyword_cex :
    specContainsBlockKeyword ("x = if y".toList) = true ∧
    opensBlock ("x = if y".toList) = false ∧
    (buildState [("x = if y".toList)]).depth = 0 :=
  ⟨by decide, by decide, by decide⟩

/-- C6 as amended: the depth counter changes by exactly
`(+1 when the trimmed line begins with a block-opening keyword at a word
boundary) - (+1 when it begins with end)` — so a line merely containing a
keyword elsewhere is not counted, and a line with several keywords is
counted once. -/
theorem depth_delta_per_line (s : BuildState) (i : Nat) (l : List Char) :
    (scanLine s i l).depth =
      s.depth + (if opensBlock l then 1 else 0) -
        (if isEndLine l then 1 else 0) :=
  scanLine_depth s i l

/-- C7 counterexample: `def Foo` — an uppercase-initial identifier after
`def` — is recognised as a Function (the pattern accepts `[a-zA-Z_]`), and
the build emits the Function node, contrary to the claimed
lowercase-leading requirement. -/
theorem def_uppercase_cex :
    matchLine ("def Foo".toList) = some ("Foo".toList, SymbolKind.function) ∧
    buildStr "def Foo" =
      [⟨"Foo".toList, SymbolKind.function, ⟨0, 4⟩, ⟨0, 7⟩, []⟩] :=
  ⟨rfl, rfl⟩

/-- C7 as amended: the `def` pattern accepts any identifier whose first
character is a letter of either case or an underscore; the uppercase-initial
casing requirement belongs to the class/struct/enum (and const) patterns
only. -/
theorem def_pattern_any_letter (c : Char) (cs : List Char)
    (h : isIdentStart c = true) :
    matchLine (("def ".toList) ++ c :: cs) =
      some (c :: cs.takeWhile isWordChar, SymbolKind.function) := by
  have hns : isSpaceChar c = false := not_space_of_identStart h
  show matchLine ('d' :: 'e' :: 'f' :: ' ' :: c :: cs) = _
  have hm : matchKwIdent ("def".toList) isIdentStart
      ('d' :: 'e' :: 'f' :: ' ' :: c :: cs) =
      some (c :: cs.takeWhile isWordChar) := by
    unfold matchKwIdent
    rw [List.dropWhile_cons_of_neg (by decide)]
    rw [show ("def".toList).isPrefixOf ('d' :: 'e' :: 'f' :: ' ' :: c :: cs)
        = true by simp [List.isPrefixOf]]
    dsimp only [List.drop]
    rw [if_pos rfl, if_pos (by decide : isSpaceChar ' ' = true)]
    rw [List.dropWhile_cons_of_pos (by decide), List.dropWhile_cons_of_neg
      (by simp [hns])]
    dsimp only
    rw [if_pos h]
  unfold matchLine
  rw [hm]

theorem def_pattern_any_letter_witness :
    matchLine (("def ".toList) ++ 'F' :: ("oo".toList)) =
      some ('F' :: ("oo".toList).takeWhile isWordChar, SymbolKind.function) :=
  def_pattern_any_letter 'F' ("oo".toList) (by decide)

/-! ## Claim theorems: node creation and nesting -/

lemma scanDepthPhase_arena (s : BuildState) (l : List Char) :
    (scanDepthPhase s l).arena = s.arena := by
  unfold scanDepthPhase
  split <;> rfl

/-- Function `pushChild` changes only the `childIdx` of one entry: every lookup still
returns a node with the same name, kind and range. -/
lemma pushChild_get_fields (a : List RawNode) (p ci j : Nat) {node : RawNode}
    (hj : a[j]? = some node) :
    ∃ node', (pushChild a p ci)[j]? = some node' ∧
      node'.name = node.name ∧ node'.kind = node.kind ∧
      node'.rangeStart = node.rangeStart ∧ node'.rangeEnd = node.rangeEnd := by
  unfold pushChild
  cases hp : a[p]? with
  | none => exact ⟨node, hj, rfl, rfl, rfl, rfl⟩
  | some q =>
    by_cases hpj : p = j
    · subst hpj
      rw [hp] at hj
      obtain rfl : q = node := by injection hj
      have hplen : p < a.length := (List.getElem?_eq_some_iff.mp hp).1
      exact ⟨{ q with childIdx := q.childIdx ++ [ci] },
        List.getElem?_set_self hplen, rfl, rfl, rfl, rfl⟩
    · exact ⟨node, by rw [List.getElem?_set_ne hpj]; exact hj, rfl, rfl, rfl, rfl⟩

/-- C8 counterexample: on the line `def d` the captured identifier is `d`,
whose first occurrence in the line is inside the keyword at column 0, so the
node's start column is 0 and not the identifier's column 4. -/
theorem start_col_first_occurrence_cex :
    (buildStr "def d").map (fun nd => nd.rangeStart) = [⟨0, 0⟩] ∧
    (buildStr "def d").map (fun nd => nd.rangeStart) ≠ [⟨0, 4⟩] :=
  ⟨rfl, by decide⟩

/-- C8 as amended: for every matched line the created node's start is
`(line index, first occurrence of the captured name in the line)` — which is
the identifier's own column only when the name's text does not occur earlier
— and its provisional end is `(line index, line length)`. -/
theorem created_node_positions (s : BuildState) (i : Nat) (l n : List Char)
    (k : SymbolKind) (h : matchLine l = some (n, k)) :
    ∃ node : RawNode,
      (scanLine s i l).arena[s.arena.length]? = some node ∧
      node.name = n ∧ node.kind = k ∧
      node.rangeStart = ⟨i, indexOfSub l n⟩ ∧
      node.rangeEnd = ⟨i, l.length⟩ := by
  have he := isEndLine_false_of_match h
  rw [scanLine, scanEndPhase_not he, scanDepthPhase_arena]
  unfold scanMatchPhase
  rw [h]
  dsimp only
  have hbase : (s.arena ++
      [(⟨n, k, ⟨i, indexOfSub l n⟩, ⟨i, l.length⟩, []⟩ : RawNode)])[s.arena.length]? =
      some ⟨n, k, ⟨i, indexOfSub l n⟩, ⟨i, l.length⟩, []⟩ :=
    List.getElem?_concat_length _ _
  cases hs : s.blockStack with
  | nil =>
    dsimp only
    split <;> exact ⟨_, hbase, rfl, rfl, rfl, rfl⟩
  | cons q qs =>
    obtain ⟨p, pd⟩ := q
    dsimp only
    by_cases hk : k = SymbolKind.function ∨ k = SymbolKind.enum
    · rw [if_pos hk]
      obtain ⟨node', h1, h2, h3, h4, h5⟩ :=
        pushChild_get_fields _ p s.arena.length _ hbase
      split <;> exact ⟨node', h1, h2, h3, h4, h5⟩
    · rw [if_neg hk]
      split <;> exact ⟨_, hbase, rfl, rfl, rfl, rfl⟩

theorem created_node_positions_witness :
    ∃ node : RawNode,
      (scanLine initState 0 ("def d".toList)).arena[(initState.arena.length)]? =
        some node ∧
      node.name = "d".toList ∧ node.kind = SymbolKind.function ∧
      node.rangeStart = ⟨0, indexOfSub ("def d".toList) ("d".toList)⟩ ∧
      node.rangeEnd = ⟨0, ("def d".toList).length⟩ :=
  created_node_positions initState 0 ("def d".toList) ("d".toList)
    SymbolKind.function (by rfl)

/-- C10: with a non-empty stack, a matched Function or Enum node is appended
to the children of whichever node's frame is on top — that frame may itself
be a Function or Enum frame — the top-level list is unchanged, and a new
frame for the child is pushed. -/
theorem child_attaches_to_stack_top (s : BuildState) (i : Nat)
    (l n : List Char) (k : SymbolKind) (p : Nat) (pd : Int)
    (rest : List (Nat × Int))
    (h : matchLine l = some (n, k))
    (hk : k = SymbolKind.function ∨ k = SymbolKind.enum)
    (hs : s.blockStack = (p, pd) :: rest) (hp : p < s.arena.length) :
    (scanLine s i l).topLevel = s.topLevel ∧
    (scanLine s i l).blockStack = (s.arena.length, s.depth) :: s.blockStack ∧
    ∃ parent parent' : RawNode,
      s.arena[p]? = some parent ∧
      (scanLine s i l).arena[p]? = some parent' ∧
      parent'.childIdx = parent.childIdx ++ [s.arena.length] ∧
      parent'.kind = parent.kind ∧ parent'.name = parent.name := by
  rw [scanLine_funcEnum_child h hk hs]
  refine ⟨rfl, rfl, ?_⟩
  have hplen : p < (s.arena ++
      [(⟨n, k, ⟨i, indexOfSub l n⟩, ⟨i, l.length⟩, []⟩ : RawNode)]).length := by
    rw [List.length_append]
    omega
  have hparent : (s.arena ++
      [(⟨n, k, ⟨i, indexOfSub l n⟩, ⟨i, l.length⟩, []⟩ : RawNode)])[p]? =
      s.arena[p]? := List.getElem?_append_left hp
  have hsome : s.arena[p]? = some (s.arena[p]) := List.getElem?_eq_getElem hp
  refine ⟨s.arena[p],
    { s.arena[p] with
        childIdx := (s.arena[p]).childIdx ++ [s.arena.length] },
    hsome, ?_, rfl, rfl, rfl⟩
  unfold pushChild
  rw [hparent, hsome]
  exact List.getElem?_set_self hplen

theorem child_attaches_to_stack_top_witness :
    (scanLine (buildState [("class A".toList), ("def f".toList)]) 2
        ("def g".toList)).topLevel =
      (buildState [("class A".toList), ("def f".toList)]).topLevel ∧
    (scanLine (buildState [("class A".toList), ("def f".toList)]) 2
        ("def g".toList)).blockStack =
      ((buildState [("class A".toList), ("def f".toList)]).arena.length,
        (buildState [("class A".toList), ("def f".toList)]).depth) ::
        (buildState [("class A".toList), ("def f".toList)]).blockStack ∧
    ∃ parent parent' : RawNode,
      (buildState [("class A".toList), ("def f".toList)]).arena[1]? =
        some parent ∧
      (scanLine (buildState [("class A".toList), ("def f".toList)]) 2
          ("def g".toList)).arena[1]? = some parent' ∧
      parent'.childIdx = parent.childIdx ++
        [(buildState [("class A".toList), ("def f".toList)]).arena.length] ∧
      parent'.kind = parent.kind ∧ parent'.name = parent.name :=
  child_attaches_to_stack_top
    (buildState [("class A".toList), ("def f".toList)]) 2
    ("def g".toList) ("g".toList) SymbolKind.function 1 1 [(0, 0)]
    (by rfl) (Or.inl rfl) (by rfl) (by decide)

/-- C1: a class line, two function lines each closed by its own `end`, and a
final `end` closing the class produce exactly one top-level Class node whose
children are the two Function nodes in declaration order; each function's
end is resolved to its own closing line (lines 2 and 4) and the class's end
to the final closing line (line 5), not the last function's. -/
theorem build_class_with_two_functions
    (cl d1 e1 d2 e2 e3 cn n1 n2 : List Char)
    (hcl : matchLine cl = some (cn, SymbolKind.class_))
    (hd1 : matchLine d1 = some (n1, SymbolKind.function))
    (hd2 : matchLine d2 = some (n2, SymbolKind.function))
    (he1 : isEndLine e1 = true) (he2 : isEndLine e2 = true)
    (he3 : isEndLine e3 = true) :
    provideDocumentSymbols [cl, d1, e1, d2, e2, e3] =
      [⟨cn, SymbolKind.class_, ⟨0, indexOfSub cl cn⟩, ⟨5, e3.length⟩,
        [⟨n1, SymbolKind.function, ⟨1, indexOfSub d1 n1⟩, ⟨2, e1.length⟩, []⟩,
         ⟨n2, SymbolKind.function, ⟨3, indexOfSub d2 n2⟩, ⟨4, e2.length⟩,
           []⟩]⟩] := by
  have h1 : scanLine initState 0 cl =
      ⟨[⟨cn, SymbolKind.class_, ⟨0, indexOfSub cl cn⟩, ⟨0, cl.length⟩, []⟩],
        [0], [(0, 0)], 1⟩ := by
    rw [scanLine_class hcl]
    rfl
  have h2 : scanLine
      (⟨[⟨cn, SymbolKind.class_, ⟨0, indexOfSub cl cn⟩, ⟨0, cl.length⟩, []⟩],
        [0], [(0, 0)], 1⟩ : BuildState) 1 d1 =
      ⟨[⟨cn, SymbolKind.class_, ⟨0, indexOfSub cl cn⟩, ⟨0, cl.length⟩, [1]⟩,
        ⟨n1, SymbolKind.function, ⟨1, indexOfSub d1 n1⟩, ⟨1, d1.length⟩, []⟩],
        [0], [(1, 1), (0, 0)], 2⟩ := by
    rw [scanLine_funcEnum_child hd1 (Or.inl rfl) rfl]
    rfl
  have h3 : scanLine
      (⟨[⟨cn, SymbolKind.class_, ⟨0, indexOfSub cl cn⟩, ⟨0, cl.length⟩, [1]⟩,
        ⟨n1, SymbolKind.function, ⟨1, indexOfSub d1 n1⟩, ⟨1, d1.length⟩, []⟩],
        [0], [(1, 1), (0, 0)], 2⟩ : BuildState) 2 e1 =
      ⟨[⟨cn, SymbolKind.class_, ⟨0, indexOfSub cl cn⟩, ⟨0, cl.length⟩, [1]⟩,
        ⟨n1, SymbolKind.function, ⟨1, indexOfSub d1 n1⟩, ⟨2, e1.length⟩, []⟩],
        [0], [(0, 0)], 1⟩ := by
    rw [scanLine_end_pop
      (⟨[⟨cn, SymbolKind.class_, ⟨0, indexOfSub cl cn⟩, ⟨0, cl.length⟩, [1]⟩,
        ⟨n1, SymbolKind.function, ⟨1, indexOfSub d1 n1⟩, ⟨1, d1.length⟩, []⟩],
        [0], [(1, 1), (0, 0)], 2⟩ : BuildState) he1 rfl (by dsimp only; decide)]
    rfl
  have h4 : scanLine
      (⟨[⟨cn, SymbolKind.class_, ⟨0, indexOfSub cl cn⟩, ⟨0, cl.length⟩, [1]⟩,
        ⟨n1, SymbolKind.function, ⟨1, indexOfSub d1 n1⟩, ⟨2, e1.length⟩, []⟩],
        [0], [(0, 0)], 1⟩ : BuildState) 3 d2 =
      ⟨[⟨cn, SymbolKind.class_, ⟨0, indexOfSub cl cn⟩, ⟨0, cl.length⟩, [1, 2]⟩,
        ⟨n1, SymbolKind.function, ⟨1, indexOfSub d1 n1⟩, ⟨2, e1.length⟩, []⟩,
        ⟨n2, SymbolKind.function, ⟨3, indexOfSub d2 n2⟩, ⟨3, d2.length⟩, []⟩],
        [0], [(2, 1), (0, 0)], 2⟩ := by
    rw [scanLine_funcEnum_child hd2 (Or.inl rfl) rfl]
    rfl
  have h5 : scanLine
      (⟨[⟨cn, SymbolKind.class_, ⟨0, indexOfSub cl cn⟩, ⟨0, cl.length⟩, [1, 2]⟩,
        ⟨n1, SymbolKind.function, ⟨1, indexOfSub d1 n1⟩, ⟨2, e1.length⟩, []⟩,
        ⟨n2, SymbolKind.function, ⟨3, indexOfSub d2 n2⟩, ⟨3, d2.length⟩, []⟩],
        [0], [(2, 1), (0, 0)], 2⟩ : BuildState) 4 e2 =
      ⟨[⟨cn, SymbolKind.class_, ⟨0, indexOfSub cl cn⟩, ⟨0, cl.length⟩, [1, 2]⟩,
        ⟨n1, SymbolKind.function, ⟨1, indexOfSub d1 n1⟩, ⟨2, e1.length⟩, []⟩,
        ⟨n2, SymbolKind.function, ⟨3, indexOfSub d2 n2⟩, ⟨4, e2.length⟩, []⟩],
        [0], [(0, 0)], 1⟩ := by
    rw [scanLine_end_pop
      (⟨[⟨cn, SymbolKind.class_, ⟨0, indexOfSub cl cn⟩, ⟨0, cl.length⟩, [1, 2]⟩,
        ⟨n1, SymbolKind.function, ⟨1, indexOfSub d1 n1⟩, ⟨2, e1.length⟩, []⟩,
        ⟨n2, SymbolKind.function, ⟨3, indexOfSub d2 n2⟩, ⟨3, d2.length⟩, []⟩],
        [0], [(2, 1), (0, 0)], 2⟩ : BuildState) he2 rfl (by dsimp only; decide)]
    rfl
  have h6 : scanLine
      (⟨[⟨cn, SymbolKind.class_, ⟨0, indexOfSub cl cn⟩, ⟨0, cl.length⟩, [1, 2]⟩,
        ⟨n1, SymbolKind.function, ⟨1, indexOfSub d1 n1⟩, ⟨2, e1.length⟩, []⟩,
        ⟨n2, SymbolKind.function, ⟨3, indexOfSub d2 n2⟩, ⟨4, e2.length⟩, []⟩],
        [0], [(0, 0)], 1⟩ : BuildState) 5 e3 =
      ⟨[⟨cn, SymbolKind.class_, ⟨0, indexOfSub cl cn⟩, ⟨5, e3.length⟩, [1, 2]⟩,
        ⟨n1, SymbolKind.function, ⟨1, indexOfSub d1 n1⟩, ⟨2, e1.length⟩, []⟩,
        ⟨n2, SymbolKind.function, ⟨3, indexOfSub d2 n2⟩, ⟨4, e2.length⟩, []⟩],
        [0], [], 0⟩ := by
    rw [scanLine_end_pop
      (⟨[⟨cn, SymbolKind.class_, ⟨0, indexOfSub cl cn⟩, ⟨0, cl.length⟩, [1, 2]⟩,
        ⟨n1, SymbolKind.function, ⟨1, indexOfSub d1 n1⟩, ⟨2, e1.length⟩, []⟩,
        ⟨n2, SymbolKind.function, ⟨3, indexOfSub d2 n2⟩, ⟨4, e2.length⟩, []⟩],
        [0], [(0, 0)], 1⟩ : BuildState) he3 rfl (by dsimp only; decide)]
    rfl
  have hb : buildState [cl, d1, e1, d2, e2, e3] =
      scanLine (scanLine (scanLine (scanLine (scanLine
        (scanLine initState 0 cl) 1 d1) 2 e1) 3 d2) 4 e2) 5 e3 := rfl
  show ((buildState [cl, d1, e1, d2, e2, e3]).topLevel).map
      (toTree (buildState [cl, d1, e1, d2, e2, e3]).arena
        (buildState [cl, d1, e1, d2, e2, e3]).arena.length) = _
  rw [hb, h1, h2, h3, h4, h5, h6]
  rfl

theorem build_class_with_two_functions_witness :
    provideDocumentSymbols
        [("class Foo".toList), ("def bar".toList), ("end".toList),
         ("def baz".toList), ("end".toList), ("end".toList)] =
      [⟨"Foo".toList, SymbolKind.class_,
        ⟨0, indexOfSub ("class Foo".toList) ("Foo".toList)⟩,
        ⟨5, ("end".toList).length⟩,
        [⟨"bar".toList, SymbolKind.function,
          ⟨1, indexOfSub ("def bar".toList) ("bar".toList)⟩,
          ⟨2, ("end".toList).length⟩, []⟩,
         ⟨"baz".toList, SymbolKind.function,
          ⟨3, indexOfSub ("def baz".toList) ("baz".toList)⟩,
          ⟨4, ("end".toList).length⟩, []⟩]⟩] :=
  build_class_with_two_functions
    ("class Foo".toList) ("def bar".toList) ("end".toList)
    ("def baz".toList) ("end".toList) ("end".toList)
    ("Foo".toList) ("bar".toList) ("baz".toList)
    (by decide) (by decide) (by decide) (by decide) (by decide) (by decide)

/-! ## Invariants for unterminated blocks (C9) -/

lemma pushChild_length (a : List RawNode) (p c : Nat) :
    (pushChild a p c).length = a.length := by
  unfold pushChild
  cases h : a[p]? <;> simp

lemma setEnd_length (a : List RawNode) (idx : Nat) (e : Pos) :
    (setEnd a idx e).length = a.length := by
  unfold setEnd
  cases h : a[idx]? <;> simp

lemma pushChild_get_ne (a : List RawNode) (p c j : Nat) (h : p ≠ j) :
    (pushChild a p c)[j]? = a[j]? := by
  unfold pushChild
  cases hx : a[p]? with
  | none => rfl
  | some q => exact List.getElem?_set_ne h

lemma setEnd_get_ne (a : List RawNode) (idx : Nat) (e : Pos) (j : Nat)
    (h : idx ≠ j) : (setEnd a idx e)[j]? = a[j]? := by
  unfold setEnd
  cases hx : a[idx]? with
  | none => rfl
  | some q => exact List.getElem?_set_ne h

/-- Whatever `pushChild` returns at any index differs from the original at
most in `childIdx`. -/
lemma pushChild_get_rev (a : List RawNode) (p c j : Nat) {node' : RawNode}
    (h : (pushChild a p c)[j]? = some node') :
    ∃ node, a[j]? = some node ∧ node'.kind = node.kind ∧
      node'.rangeStart = node.rangeStart ∧ node'.rangeEnd = node.rangeEnd := by
  unfold pushChild at h
  cases hx : a[p]? with
  | none => rw [hx] at h; exact ⟨node', h, rfl, rfl, rfl⟩
  | some q =>
    rw [hx] at h
    by_cases hpj : p = j
    · subst hpj
      rw [List.getElem?_set_self (List.getElem?_eq_some_iff.mp hx).1] at h
      injection h with h
      subst h
      exact ⟨q, hx, rfl, rfl, rfl⟩
    · rw [List.getElem?_set_ne hpj] at h
      exact ⟨node', h, rfl, rfl, rfl⟩

/-- Whatever `setEnd` returns at any index has the original's kind. -/
lemma setEnd_get_rev (a : List RawNode) (idx : Nat) (e : Pos) (j : Nat)
    {node' : RawNode} (h : (setEnd a idx e)[j]? = some node') :
    ∃ node, a[j]? = some node ∧ node'.kind = node.kind := by
  unfold setEnd at h
  cases hx : a[idx]? with
  | none => rw [hx] at h; exact ⟨node', h, rfl⟩
  | some q =>
    rw [hx] at h
    by_cases hij : idx = j
    · subst hij
      rw [List.getElem?_set_self (List.getElem?_eq_some_iff.mp hx).1] at h
      injection h with h
      subst h
      exact ⟨q, hx, rfl⟩
    · rw [List.getElem?_set_ne hij] at h
      exact ⟨node', h, rfl⟩

lemma concat_get_cases {a : List RawNode} {nd node : RawNode} {idx : Nat}
    (h : (a ++ [nd])[idx]? = some node) :
    (idx < a.length ∧ a[idx]? = some node) ∨ (idx = a.length ∧ node = nd) := by
  rcases Nat.lt_trichotomy idx a.length with hlt | heq | hgt
  · left
    exact ⟨hlt, by rwa [List.getElem?_append_left hlt] at h⟩
  · right
    subst heq
    rw [List.getElem?_concat_length] at h
    injection h with h
    exact ⟨rfl, h.symm⟩
  · exfalso
    have : (a ++ [nd])[idx]? = none :=
      List.getElem?_eq_none (by rw [List.length_append]; simp; omega)
    rw [this] at h
    cases h

lemma stateOK_scanDepthPhase (lines : List (List Char)) {s : BuildState}
    {l : List Char} (h : StateOK lines s) :
    StateOK lines (scanDepthPhase s l) := by
  unfold scanDepthPhase
  split
  · exact h
  · exact h

lemma stateOK_scanEndPhase (lines : List (List Char)) {s : BuildState}
    {i : Nat} {l : List Char} (h : StateOK lines s) :
    StateOK lines (scanEndPhase s i l) := by
  obtain ⟨ar, tl, bs, dp⟩ := s
  obtain ⟨h1, h2, h3, h4⟩ := h
  unfold scanEndPhase
  split
  · cases bs with
    | nil => exact ⟨h1, h2, h3, h4⟩
    | cons q0 qs =>
      obtain ⟨t, td⟩ := q0
      dsimp only
      dsimp only at h1 h2 h3 h4
      split
      · have htnodup : t ∉ qs.map Prod.fst := by
          simp only [List.map_cons] at h2
          exact (List.nodup_cons.mp h2).1
        refine ⟨?_, ?_, ?_, ?_⟩
        · intro q hq
          rw [setEnd_length]
          exact h1 q (List.mem_cons_of_mem _ hq)
        · simp only [List.map_cons] at h2
          exact (List.nodup_cons.mp h2).2
        · intro q hq node hnode
          have hqt : t ≠ q.1 := fun he =>
            htnodup (he ▸ List.mem_map_of_mem Prod.fst hq)
          rw [setEnd_get_ne _ _ _ _ hqt] at hnode
          exact h3 q (List.mem_cons_of_mem _ hq) node hnode
        · intro idx node hnode hf hene
          obtain ⟨node0, hnode0, hkind⟩ := setEnd_get_rev _ _ _ _ hnode
          exact h4 idx node0 hnode0 (hkind ▸ hf) (hkind ▸ hene)
      · exact ⟨h1, h2, h3, h4⟩
  · exact ⟨h1, h2, h3, h4⟩

lemma stateOK_scanMatchPhase (lines : List (List Char)) {s : BuildState}
    {i : Nat} {l : List Char} (hl : lines.getD i [] = l) (h : StateOK lines s) :
    StateOK lines (scanMatchPhase s i l) := by
  obtain ⟨ar, tl, bs, dp⟩ := s
  obtain ⟨h1, h2, h3, h4⟩ := h
  unfold scanMatchPhase
  cases hm : matchLine l with
  | none => exact ⟨h1, h2, h3, h4⟩
  | some nk =>
    obtain ⟨n, k⟩ := nk
    dsimp only
    dsimp only at h1 h2 h3 h4
    have hnew : ((ar ++
        [(⟨n, k, ⟨i, indexOfSub l n⟩, ⟨i, l.length⟩, []⟩ : RawNode)]))[ar.length]? =
        some ⟨n, k, ⟨i, indexOfSub l n⟩, ⟨i, l.length⟩, []⟩ :=
      List.getElem?_concat_length _ _
    cases bs with
    | nil =>
      dsimp only
      split
      · refine ⟨?_, ?_, ?_, ?_⟩
        · intro q hq
          simp only [List.mem_singleton] at hq
          subst hq
          simp
        · simp
        · intro q hq node hnode
          simp only [List.mem_singleton] at hq
          subst hq
          dsimp only at hnode
          rw [hnew] at hnode
          injection hnode with hnode
          subst hnode
          exact ⟨rfl, by dsimp only; rw [hl]⟩
        · intro idx node hnode hf hene
          rcases concat_get_cases hnode with ⟨hlt, hidx⟩ | ⟨rfl, rfl⟩
          · exact List.mem_append_left _ (h4 idx node hidx hf hene)
          · exact List.mem_append_right _ (List.mem_singleton.mpr rfl)
      · refine ⟨?_, ?_, ?_, ?_⟩
        · intro q hq
          exact absurd hq (List.not_mem_nil q)
        · simp
        · intro q hq node hnode
          exact absurd hq (List.not_mem_nil q)
        · intro idx node hnode hf hene
          rcases concat_get_cases hnode with ⟨hlt, hidx⟩ | ⟨rfl, rfl⟩
          · exact List.mem_append_left _ (h4 idx node hidx hf hene)
          · exact List.mem_append_right _ (List.mem_singleton.mpr rfl)
    | cons q0 qs =>
      obtain ⟨p, pd⟩ := q0
      dsimp only
      by_cases hk : k = SymbolKind.function ∨ k = SymbolKind.enum
      · rw [if_pos hk]
        have hcond : k = SymbolKind.class_ ∨ k = SymbolKind.struct_ ∨
            k = SymbolKind.enum ∨ k = SymbolKind.function := by
          rcases hk with rfl | rfl
          · exact Or.inr (Or.inr (Or.inr rfl))
          · exact Or.inr (Or.inr (Or.inl rfl))
        rw [if_pos hcond]
        have hplt : p < ar.length := h1 (p, pd) (List.mem_cons_self _ _)
        have hpne : p ≠ ar.length := Nat.ne_of_lt hplt
        refine ⟨?_, ?_, ?_, ?_⟩
        · intro q hq
          rw [pushChild_length, List.length_append]
          rcases List.mem_cons.mp hq with rfl | hq2
          · simp only [List.length_cons, List.length_nil]
            exact Nat.lt_succ_self _
          · have := h1 q hq2
            simp only [List.length_cons, List.length_nil]
            omega
        · simp only [List.map_cons]
          refine List.nodup_cons.mpr ⟨?_, h2⟩
          intro hmem
          rcases List.mem_cons.mp hmem with heq | hmem2
          · omega
          · obtain ⟨q, hqmem, hqeq⟩ := List.mem_map.mp hmem2
            have := h1 q (List.mem_cons_of_mem _ hqmem)
            omega
        · intro q hq node hnode
          rcases List.mem_cons.mp hq with rfl | hq2
          · dsimp only at hnode
            rw [pushChild_get_ne _ _ _ _ hpne, hnew] at hnode
            injection hnode with hnode
            subst hnode
            exact ⟨rfl, by dsimp only; rw [hl]⟩
          · obtain ⟨node0, hnode0, hkind, hrs, hre⟩ :=
              pushChild_get_rev _ _ _ _ hnode
            rcases concat_get_cases hnode0 with ⟨hlt, hidx⟩ | ⟨heq, rfl⟩
            · rw [hrs, hre]
              exact h3 q hq2 node0 hidx
            · have := h1 q hq2
              omega
        · intro idx node hnode hf hene
          obtain ⟨node0, hnode0, hkind, -, -⟩ := pushChild_get_rev _ _ _ _ hnode
          rcases concat_get_cases hnode0 with ⟨hlt, hidx⟩ | ⟨rfl, rfl⟩
          · exact h4 idx node0 hidx (hkind ▸ hf) (hkind ▸ hene)
          · rcases hk with rfl | rfl
            · exact absurd hkind hf
            · exact absurd hkind hene
      · rw [if_neg hk]
        split
        · refine ⟨?_, ?_, ?_, ?_⟩
          · intro q hq
            simp only [List.length_append, List.length_cons, List.length_nil]
            rcases List.mem_cons.mp hq with rfl | hq2
            · exact Nat.lt_succ_self _
            · have := h1 q hq2
              omega
          · simp only [List.map_cons]
            refine List.nodup_cons.mpr ⟨?_, h2⟩
            intro hmem
            rcases List.mem_cons.mp hmem with heq | hmem2
            · have := h1 (p, pd) (List.mem_cons_self _ _)
              omega
            · obtain ⟨q, hqmem, hqeq⟩ := List.mem_map.mp hmem2
              have := h1 q (List.mem_cons_of_mem _ hqmem)
              omega
          · intro q hq node hnode
            rcases List.mem_cons.mp hq with rfl | hq2
            · dsimp only at hnode
              rw [hnew] at hnode
              injection hnode with hnode
              subst hnode
              exact ⟨rfl, by dsimp only; rw [hl]⟩
            · rcases concat_get_cases hnode with ⟨hlt, hidx⟩ | ⟨heq, rfl⟩
              · exact h3 q hq2 node hidx
              · have := h1 q hq2
                omega
          · intro idx node hnode hf hene
            rcases concat_get_cases hnode with ⟨hlt, hidx⟩ | ⟨rfl, rfl⟩
            · exact List.mem_append_left _ (h4 idx node hidx hf hene)
            · exact List.mem_append_right _ (List.mem_singleton.mpr rfl)
        · refine ⟨?_, ?_, ?_, ?_⟩
          · intro q hq
            simp only [List.length_append, List.length_cons, List.length_nil]
            have := h1 q hq
            omega
          · exact h2
          · intro q hq node hnode
            rcases concat_get_cases hnode with ⟨hlt, hidx⟩ | ⟨heq, rfl⟩
            · exact h3 q hq node hidx
            · have := h1 q hq
              omega
          · intro idx node hnode hf hene
            rcases concat_get_cases hnode with ⟨hlt, hidx⟩ | ⟨rfl, rfl⟩
            · exact List.mem_append_left _ (h4 idx node hidx hf hene)
            · exact List.mem_append_right _ (List.mem_singleton.mpr rfl)

lemma stateOK_scanLine (lines : List (List Char)) {s : BuildState} {i : Nat}
    {l : List Char} (hl : lines.getD i [] = l) (h : StateOK lines s) :
    StateOK lines (scanLine s i l) := by
  rw [scanLine]
  exact stateOK_scanEndPhase lines
    (stateOK_scanDepthPhase lines (stateOK_scanMatchPhase lines hl h))

lemma stateOK_scanLines (lines : List (List Char)) :
    ∀ (rest : List (List Char)) (i : Nat) (s : BuildState),
      (∀ j : Nat, rest[j]? = lines[i + j]?) → StateOK lines s →
      StateOK lines (scanLines s i rest) := by
  intro rest
  induction rest with
  | nil =>
    intro i s hrel h
    exact h
  | cons l rest ih =>
    intro i s hrel h
    have hl : lines.getD i [] = l := by
      have h0 := hrel 0
      simp only [List.getElem?_cons_zero, Nat.add_zero] at h0
      rw [List.getD_eq_getElem?_getD, ← h0]
      rfl
    refine ih (i + 1) (scanLine s i l) ?_ (stateOK_scanLine lines hl h)
    intro j
    have hj := hrel (j + 1)
    simp only [List.getElem?_cons_succ] at hj
    rw [hj]
    congr 1
    omega

lemma stateOK_buildState (lines : List (List Char)) :
    StateOK lines (buildState lines) := by
  refine stateOK_scanLines lines lines 0 initState (fun j => by simp) ?_
  refine ⟨?_, ?_, ?_, ?_⟩
  · intro q hq
    exact absurd hq (List.not_mem_nil q)
  · simp [initState]
  · intro q hq node hnode
    exact absurd hq (List.not_mem_nil q)
  · intro idx node hnode hf hene
    simp [initState] at hnode

/-- C9: a block whose frame is still on the stack when the input ends — in
particular a class with no matching closing token — still has its node in
the arena, with the provisional end from its own definition line (that
line's end column); a Class node moreover sits in the returned top-level
forest.  No error path exists: `buildState` is total. -/
theorem unterminated_block_provisional_end (lines : List (List Char))
    (idx : Nat) (d : Int)
    (hmem : (idx, d) ∈ (buildState lines).blockStack) :
    ∃ node : RawNode,
      (buildState lines).arena[idx]? = some node ∧
      node.rangeEnd.line = node.rangeStart.line ∧
      node.rangeEnd.character = (lines.getD node.rangeStart.line []).length ∧
      (node.kind = SymbolKind.class_ → idx ∈ (buildState lines).topLevel) := by
  obtain ⟨h1, h2, h3, h4⟩ := stateOK_buildState lines
  have hlt := h1 (idx, d) hmem
  have hsome : (buildState lines).arena[idx]? =
      some ((buildState lines).arena[idx]) := List.getElem?_eq_getElem hlt
  obtain ⟨he1, he2⟩ := h3 (idx, d) hmem _ hsome
  refine ⟨_, hsome, he1, he2, fun hclass => ?_⟩
  exact h4 idx _ hsome (by simp [hclass]) (by simp [hclass])

theorem unterminated_block_provisional_end_witness :
    ((0, 0) : Nat × Int) ∈ (buildState
        [("class Foo".toList), ("def bar".toList), ("end".toList)]).blockStack ∧
    ∃ node : RawNode,
      (buildState [("class Foo".toList), ("def bar".toList),
          ("end".toList)]).arena[0]? = some node ∧
      node.rangeEnd.line = node.rangeStart.line ∧
      node.rangeEnd.character =
        (([("class Foo".toList), ("def bar".toList),
          ("end".toList)]).getD node.rangeStart.line []).length ∧
      (node.kind = SymbolKind.class_ → 0 ∈ (buildState
          [("class Foo".toList), ("def bar".toList),
            ("end".toList)]).topLevel) :=
  ⟨by decide,
    unterminated_block_provisional_end
      [("class Foo".toList), ("def bar".toList), ("end".toList)] 0 0
      (by decide)⟩

end Vibe
